import Mathlib

/-!
# Verification of the THExtended sentence-ranking and summary-evaluation pipeline

A shallow embedding of the core logic of `utils.py` and `test.py` of the
THExtended repository, together with proofs settling the frozen claims about
its natural-language specification.

Modelling conventions:
* Python floats are modelled as exact rationals (`ℚ`); every claim under
  scrutiny is about structure (zero scores, argmax selection, arithmetic
  means, sort order), not floating-point rounding.
* Python exceptions (`ValueError`, `ZeroDivisionError`, exhaustion of the
  data source) are modelled with `Except`/`Option` results.
* Python string primitives (`split`, `strip`, `lower`, `replace`, `in`,
  membership of substrings) are re-implemented by structural recursion on
  the character list `String.data`, so that all definitions evaluate inside
  the kernel.
* The opaque external collaborators (the relevance model + tokenizer, the
  sentence-embedding model, the spacy sentence splitter, the ROUGE engine)
  are parameters of the embedded functions, exactly as the specification
  treats them (its section 6, EXTERNAL INTERFACES).
-/

/-! ## Python string primitives, char-list level -/

/-- Python `s.split(sep)` for a single-character separator: split at every
occurrence, keeping empty fields (`"".split(".") == [""]`). -/
def splitOnChar (sep : Char) : List Char → List (List Char)
  | [] => [[]]
  | c :: rest =>
      if c = sep then [] :: splitOnChar sep rest
      else
        match splitOnChar sep rest with
        | [] => [[c]]
        | h :: t => (c :: h) :: t

/-- Helper for Python `s.split()` (no argument): accumulate the current
word (reversed) while scanning; whitespace ends a word; empty fields are
dropped. -/
def pyWordsChAux (cur : List Char) : List Char → List (List Char)
  | [] => if cur.isEmpty then [] else [cur.reverse]
  | c :: rest =>
      if c.isWhitespace then
        if cur.isEmpty then pyWordsChAux [] rest
        else cur.reverse :: pyWordsChAux [] rest
      else pyWordsChAux (c :: cur) rest

/-- Python `s.split()` with no argument: maximal runs of non-whitespace. -/
def pyWordsCh (l : List Char) : List (List Char) := pyWordsChAux [] l

/-- Python `s.strip()`: drop leading and trailing whitespace. -/
def pyStrip (l : List Char) : List Char :=
  ((l.dropWhile Char.isWhitespace).reverse.dropWhile Char.isWhitespace).reverse

/-- Python `s.split(pat, 1)` together with `pat in s` for a non-empty
pattern: `none` when `pat` does not occur in the list, otherwise the text
before and after the first occurrence. -/
def splitFirst (pat : List Char) : List Char → Option (List Char × List Char)
  | [] => none
  | c :: rest =>
      if pat.isPrefixOf (c :: rest) then some ([], (c :: rest).drop pat.length)
      else
        match splitFirst pat rest with
        | none => none
        | some (pre, post) => some (c :: pre, post)

/-- Python `any(char.isalpha() for char in s)`. -/
def hasAlpha (s : String) : Bool := s.data.any Char.isAlpha

/-! ## Numeric helpers (Python builtins and `statistics`) -/

/-- Python `sum(l) / len(l)`; total over `ℚ` (`len(l) = 0` divides by zero
in Python, which callers model separately where it matters). -/
def pyMean (l : List ℚ) : ℚ := l.sum / l.length

/-- Python `max(l)` over a list of numbers (Python raises on an empty list;
the embedding returns `0` there, a case no settled claim depends on). -/
def pyMax : List ℚ → ℚ
  | [] => 0
  | a :: rest => rest.foldl max a

/-- Python `statistics.harmonic_mean l`, that is
`len(l) / sum(1/x for x in l)`. -/
def harmonicMean (l : List ℚ) : ℚ := l.length / (l.map (fun x => 1 / x)).sum

/-! ## Score dictionaries -/

/-- The three sub-metrics `{f, p, r}` of one ROUGE metric
(`utils.py` represents them as a Python dict with keys "f", "p", "r"). -/
structure SubScores where
  f : ℚ
  p : ℚ
  r : ℚ
deriving DecidableEq

/-- A full ROUGE score dictionary with keys "rouge-1", "rouge-2", "rouge-l"
(the `ScoreDict` of the specification's data model). -/
structure ScoreDict where
  rouge1 : SubScores
  rouge2 : SubScores
  rougeL : SubScores
deriving DecidableEq

/-- The all-zero sub-scores `{"f": 0.0, "p": 0.0, "r": 0.0}`. -/
def zeroSub : SubScores := ⟨0, 0, 0⟩

/-- The all-zero `ScoreDict` literal appearing in `utils.compute_rouges`. -/
def zeroScoreDict : ScoreDict := ⟨zeroSub, zeroSub, zeroSub⟩

/-! ## RedundancyFilter: `utils.trigram_blocking` (utils.py lines 316-326) -/

/-- Lower-cased word list of a sentence: `sentence.lower().split()`,
with `lower` applied per character. -/
def pyLowerWords (s : String) : List (List Char) :=
  pyWordsCh (s.data.map Char.toLower)

/-- Consecutive word triples, as `nltk.ngrams(ws, 3)` yields them (empty
when the sentence has fewer than 3 words); a trigram is modelled as a
3-element list of words. -/
def listTrigrams : List (List Char) → List (List (List Char))
  | a :: b :: c :: rest => [a, b, c] :: listTrigrams (b :: c :: rest)
  | _ => []

/-- The trigram set `set(ngrams(sentence.lower().split(), 3))` of one
sentence (modelled as a list; only membership is ever consulted, so
deduplication is irrelevant). -/
def sentTrigrams (s : String) : List (List (List Char)) := listTrigrams (pyLowerWords s)

/-- The loop of `utils.trigram_blocking`: `seen` is the running
`trigrams_summary` set; a sentence is kept iff its trigram set does not
intersect `seen`, and on acceptance its trigrams are added to `seen`. -/
def tbGo (seen : List (List (List Char))) : List String → List String
  | [] => []
  | s :: rest =>
      if (sentTrigrams s).any (fun t => t ∈ seen) then
        tbGo seen rest
      else
        s :: tbGo (seen ++ sentTrigrams s) rest

/-- Embedding of `utils.trigram_blocking` (utils.py lines 316-326). -/
def trigram_blocking (sentences : List String) : List String := tbGo [] sentences

/-! ## Ranker: `utils.get_scores` (utils.py lines 298-313)

The relevance model and tokenizer are opaque (specification section 6): the
embedding takes a `model : List String → String → List ℚ` producing the
logit list for a batch of (sentence, context) pairs. Python's
`sorted(range(len(scores)), key=lambda i: scores[i], reverse=True)` is a
stable descending sort of the index list; on distinct indices that is
exactly the unique sort by the total order "higher score first, ties by
lower index first" (`rankLe`), here computed with insertion sort. -/

/-- Index ordering used by `get_scores`: `i` comes no later than `j` iff
`i`'s score is higher, or the scores tie and `i` was earlier in the input. -/
def rankLe (scores : List ℚ) (i j : ℕ) : Prop :=
  scores.getD j 0 < scores.getD i 0 ∨
    (scores.getD i 0 = scores.getD j 0 ∧ i ≤ j)

instance (scores : List ℚ) : DecidableRel (rankLe scores) := fun i j => by
  unfold rankLe
  infer_instance

instance (scores : List ℚ) : IsTotal ℕ (rankLe scores) := by
  constructor
  intro i j
  rcases lt_trichotomy (scores.getD i 0) (scores.getD j 0) with h | h | h
  · exact Or.inr (Or.inl h)
  · rcases Nat.le_total i j with hij | hij
    · exact Or.inl (Or.inr ⟨h, hij⟩)
    · exact Or.inr (Or.inr ⟨h.symm, hij⟩)
  · exact Or.inl (Or.inl h)

instance (scores : List ℚ) : IsTrans ℕ (rankLe scores) := by
  constructor
  intro i j k hij hjk
  rcases hij with h1 | ⟨h1, hle1⟩ <;> rcases hjk with h2 | ⟨h2, hle2⟩
  · exact Or.inl (h2.trans h1)
  · exact Or.inl (h2 ▸ h1)
  · exact Or.inl (h1 ▸ h2)
  · exact Or.inr ⟨h1.trans h2, hle1.trans hle2⟩

/-- The sorted index list
`sorted(range(len(scores)), key=lambda i: scores[i], reverse=True)`. -/
def sortedIndices (scores : List ℚ) : List ℕ :=
  List.insertionSort (rankLe scores) (List.range scores.length)

/-- Embedding of `utils.get_scores` (utils.py lines 298-313): score all
sentences against the shared context in one batched model call, then return
the sentences and scores reordered by descending score (out-of-range
`getD` defaults are never hit when the model returns one score per
sentence). -/
def get_scores (sentences : List String) (context : String)
    (model : List String → String → List ℚ) : List String × List ℚ :=
  let scores := model sentences context
  let idx := sortedIndices scores
  (idx.map (fun i => sentences.getD i ""), idx.map (fun i => scores.getD i 0))

/-- The concrete relevance model of the specification's ranking example:
scores 0.2, 0.9, 0.5 for the three sentences of any batch. -/
def exampleRankModel : List String → String → List ℚ :=
  fun _ _ => [1/5, 9/10, 1/2]

/-- A trivial relevance model assigning score 0 to every sentence,
used to instantiate theorems at concrete inputs. -/
def zeroModel : List String → String → List ℚ :=
  fun s _ => s.map (fun _ => 0)

/-! ## LabelScorer: `utils.compute_rouges`, `utils.aggregate_test_scores`,
`utils.compute_similarities` (utils.py lines 175-295)

The ROUGE engine (`rouge.Rouge().get_scores`) is opaque; its possible
failure on malformed input (caught by `try/except` in the source) is
modelled by an `engine : String → String → Option ScoreDict` parameter,
`none` standing for a raised exception. The sentence-embedding model of
`compute_similarities` is opaque as well and enters through the cosine
function `cos : String → String → ℚ`. -/

/-- One step of the loop of `utils.aggregate_test_scores` (lines 284-295):
the accumulator holds `(max_rouge_2_f, best_dict)` and is updated whenever
the current dictionary's rouge-2 f-score is `>=` the running maximum. -/
def atsStep (acc : ℚ × Option ScoreDict) (d : ScoreDict) : ℚ × Option ScoreDict :=
  if acc.1 ≤ d.rouge2.f then (d.rouge2.f, some d) else acc

/-- Embedding of `utils.aggregate_test_scores`: fold with initial state
`max_rouge_2_f = 0.0` and an empty `best_dict` (the initial empty Python
dict is modelled as `none`). -/
def aggregate_test_scores (scores : List ScoreDict) : Option ScoreDict :=
  (scores.foldl atsStep ((0 : ℚ), (none : Option ScoreDict))).2

/-- The guard of `utils.compute_rouges` line 193:
`not sentence.strip() or not any(char.isalpha() for char in sentence)`. -/
def isDegenerate (s : String) : Bool :=
  (pyStrip s.data).isEmpty || !(hasAlpha s)

/-- The `aggregate_f` lambda selected by `utils.compute_rouges` lines
180-185; only ever applied under one of the three valid names. -/
def aggTrainF (agg : String) : List ℚ → ℚ :=
  if agg = "max" then pyMax
  else if agg = "average" then pyMean
  else harmonicMean

/-- One entry of the list returned by `utils.compute_rouges`: a bare
rouge-2 f-score in train mode, a (possibly empty, hence `Option`) score
dictionary in test mode. -/
inductive RougeOut where
  | trainScore (x : ℚ)
  | testScore (d : Option ScoreDict)
deriving DecidableEq

/-- The set of aggregation identifiers accepted by `compute_rouges` and
`compute_similarities`. -/
def validAggs : List String := ["max", "average", "harmonic"]

/-- Embedding of `utils.compute_rouges` (lines 175-238). The `ValueError`
raised for an unrecognized aggregation identifier is the `Except.error`
case; it is checked before the sentence loop, exactly as in the source.
Per sentence: degenerate candidates (empty after strip, or without any
alphabetic character) short-circuit to a zero entry without consulting
`engine`; otherwise one engine call per reference is aggregated with
`aggregate_test_scores` (test mode) or `aggregate_f` (train mode, on the
per-reference rouge-2 f-scores), engine failures counting as zero. -/
def compute_rouges (sentences references : List String) (aggregation : String)
    (is_test : Bool) (engine : String → String → Option ScoreDict) :
    Except String (List RougeOut) :=
  if aggregation = "max" ∨ aggregation = "average" ∨ aggregation = "harmonic" then
    Except.ok (sentences.map (fun sentence =>
      if isDegenerate sentence then
        if is_test then RougeOut.testScore (some zeroScoreDict)
        else RougeOut.trainScore 0
      else
        if is_test then
          RougeOut.testScore (aggregate_test_scores (references.map
            (fun reference => (engine sentence reference).getD zeroScoreDict)))
        else
          RougeOut.trainScore (aggTrainF aggregation (references.map
            (fun reference =>
              match engine sentence reference with
              | some d => d.rouge2.f
              | none => 0)))))
  else Except.error (String.append "Invalid aggregation parameter: " aggregation)

/-- Embedding of `utils.compute_similarities` (lines 241-256): the cosine
matrix (candidates x references) is built first, then reduced row-wise by
the selected aggregation; `harmonic` is `1 / mean(reciprocal(row))` as in
the source. An unrecognized identifier raises `ValueError` after the
encoding step, modelled by `Except.error`. -/
def compute_similarities (sentences references : List String)
    (cos : String → String → ℚ) (aggregation : String) : Except String (List ℚ) :=
  let cosine_scores := sentences.map (fun s => references.map (fun r => cos s r))
  if aggregation = "max" then Except.ok (cosine_scores.map pyMax)
  else if aggregation = "average" then Except.ok (cosine_scores.map pyMean)
  else if aggregation = "harmonic" then
    Except.ok (cosine_scores.map (fun row => 1 / pyMean (row.map (fun x => 1 / x))))
  else Except.error (String.append "Invalid aggregation parameter: " aggregation)

/-! ## Aggregate report: `test.compute_avg_dict` (test.py lines 75-86) -/

/-- Embedding of `test.compute_avg_dict`: per (metric, submetric) leaf,
`sum(d[key][metric] for d in dict_list) / len(dict_list)`; the division by
zero Python raises on an empty list is the `none` case. -/
def compute_avg_dict (dict_list : List ScoreDict) : Option ScoreDict :=
  if dict_list.isEmpty then none
  else some ⟨
    ⟨pyMean (dict_list.map (fun d => d.rouge1.f)),
     pyMean (dict_list.map (fun d => d.rouge1.p)),
     pyMean (dict_list.map (fun d => d.rouge1.r))⟩,
    ⟨pyMean (dict_list.map (fun d => d.rouge2.f)),
     pyMean (dict_list.map (fun d => d.rouge2.p)),
     pyMean (dict_list.map (fun d => d.rouge2.r))⟩,
    ⟨pyMean (dict_list.map (fun d => d.rougeL.f)),
     pyMean (dict_list.map (fun d => d.rougeL.p)),
     pyMean (dict_list.map (fun d => d.rougeL.r))⟩⟩

/-! ## TextCleaner: `utils.clean_dataset` (utils.py lines 32-100)

The spacy sentence splitter applied to the raw highlight text is opaque
(specification section 6, `SentenceSplitter`) and enters as a
`split : String → List String` parameter. `dataset.shuffle(seed=seed)` is
performed by the external dataset store; the embedding receives the
already-shuffled record sequence. Running past the end of the shuffled
source (Python `ds[i]` raising `IndexError`) is the `none` result. -/

/-- A raw CNN/DailyMail record (the `RawRecord` of the data model). -/
structure RawRecord where
  article : String
  highlights : String
deriving DecidableEq

/-- A cleaned record. The source stores the kept highlights joined with
a newline after removing every newline inside each of them, and the
consumer (`test.evaluate_model`) splits the field on newlines again; since
the pieces are newline-free the two representations are isomorphic, and
the embedding stores the pieces as a list. -/
structure CleanedRecord where
  article : String
  highlights : List String
deriving DecidableEq

/-- The highlight-keeping test of utils.py line 55:
`len(current_h.text.split(" ")) > 3 and any(char.isalpha() ...)`. -/
def hlKeep (h : String) : Bool :=
  decide (3 < (splitOnChar ' ' h.data).length) && hasAlpha h

/-- The stored form of a kept highlight (utils.py line 59):
`current_h.text.replace("\n", "").strip()`. -/
def cleanPiece (h : String) : String :=
  String.mk (pyStrip (h.data.filter (fun c => c ≠ '\n')))

/-- Boilerplate-prefix stripping (utils.py lines 67-78): if `pat` occurs in
the article and the text before its first occurrence has at most 40
characters (`before_th`), drop everything up to and including `pat`. -/
def stripBoiler (pat : List Char) (article : List Char) : List Char :=
  match splitFirst pat article with
  | none => article
  | some (pre, post) => if pre.length ≤ 40 then post else article

/-- Count of words of a `"."`-segment that contain no digit
(utils.py line 83). -/
def goodWordCount (seg : List Char) : ℕ :=
  ((pyWordsCh seg).filter (fun w => !(w.any Char.isDigit))).length

/-- Scan of the `"."`-segments (utils.py lines 82-89): the suffix of the
segment list starting at the first segment with more than 2 digit-free
words, `none` when no segment qualifies (then the loop falls through and
the article is left unchanged). -/
def findGoodStart : List (List Char) → Option (List (List Char))
  | [] => none
  | seg :: rest =>
      if 2 < goodWordCount seg then some (seg :: rest)
      else findGoodStart rest

/-- The secondary cleanup (utils.py lines 80-89): rejoin the segments from
the first good one onwards with `"."` and strip; unchanged when no segment
qualifies. -/
def secondaryClean (article : List Char) : List Char :=
  match findGoodStart (splitOnChar '.' article) with
  | some segs => pyStrip (List.intercalate ['.'] segs)
  | none => article

/-- Processing of one shuffled record inside the loop of
`utils.clean_dataset` (lines 45-98): `none` when any filter discards the
record (Python `continue`), `some` of the cleaned record otherwise, in the
source's order: highlight filtering and count check first, then the two
boilerplate prefixes, then the secondary cleanup, then the 300-character
length floor. -/
def cleanRecord (split : String → List String) (d : RawRecord) :
    Option CleanedRecord :=
  let kept := (split d.highlights).filter hlKeep
  let pieces := kept.map cleanPiece
  if 3 ≤ kept.length ∧ kept.length ≤ 5 then
    let a1 := stripBoiler ['-', '-'] d.article.data
    let a2 := stripBoiler "(CNN)".data a1
    let a3 := secondaryClean a2
    if 300 ≤ a3.length then some ⟨String.mk a3, pieces⟩ else none
  else none

/-- The collection loop of `utils.clean_dataset` (lines 43-98): Python's
`while len(cleaned_ds) < num_samples` over increasing indices of the
shuffled source, appending accepted records; exhausting the source first is
Python's `IndexError`, modelled as `none`. -/
def cleanLoop (split : String → List String) (num : ℕ) :
    List RawRecord → List CleanedRecord → Option (List CleanedRecord)
  | [], acc => if num ≤ acc.length then some acc else none
  | d :: rest, acc =>
      if num ≤ acc.length then some acc
      else
        match cleanRecord split d with
        | some r => cleanLoop split num rest (acc ++ [r])
        | none => cleanLoop split num rest acc

/-- Embedding of `utils.clean_dataset` on the already-shuffled source. -/
def clean_dataset (split : String → List String) (shuffled : List RawRecord)
    (num_samples : ℕ) : Option (List CleanedRecord) :=
  cleanLoop split num_samples shuffled []

/-- A concrete sentence splitter returning three well-formed highlight
sentences, for instantiating the cleaning theorem. -/
def cleanSplitW : String → List String := fun _ =>
  ["alpha beta gamma delta", "epsilon zeta eta theta", "iota kappa lambda mu"]

/-- A concrete 300-character article. -/
def cleanArticleW : String := String.mk (List.replicate 300 'a')

/-- A concrete one-record shuffled source. -/
def cleanDsW : List RawRecord := [⟨cleanArticleW, "ignored"⟩]

/-- The cleaned output of `cleanDsW` under `cleanSplitW`. -/
def cleanOutW : List CleanedRecord :=
  [⟨cleanArticleW,
    ["alpha beta gamma delta", "epsilon zeta eta theta", "iota kappa lambda mu"]⟩]

/-! ## Evaluator: `test.evaluate_model` (test.py lines 15-51)

One flattened test row. The `highlights` field is the raw string of the
record; `evaluate_model` splits it on newlines
(`example['highlights'].split("\n")`). The group-closing scorer
`evaluate_article` enters `evalLoop` as an opaque total parameter
`ea : List String → List String → ScoreDict × ℚ` (its own body cannot run
in the source: it calls `compute_labels`, a function the repository never
defines — see `utilsModuleNames` below). -/
structure SentenceExample where
  sentence : String
  context : String
  highlights : String
deriving DecidableEq

/-- Python `example['highlights'].split("\n")` of test.py line 25. -/
def pySplitNl (s : String) : List String :=
  (splitOnChar '\n' s.data).map String.mk

/-- The streaming loop of `test.evaluate_model` (lines 16-49), written as a
recursion over the remaining rows with the loop state as arguments:
`current_context` (`none` before the first row), `current_article_sentences`
and `current_highlight` (set whenever a new article is opened, consulted
only at stream end). On a context change with an open group, the open
group's sentences are ranked against the open context, the top `k`
(`num_highlight`) are passed to the scorer together with the *incoming*
row's split highlights — exactly the variable `highlights` that test.py
line 32 passes — and the emission is appended; at stream end the open
group is closed with `current_highlight` (line 47). Returns the `rouges`
and `similarities` lists. -/
def evalLoop (ea : List String → List String → ScoreDict × ℚ)
    (sf : List String → String → List ℚ) (k : ℕ) :
    Option String → List String → Option (List String) →
    List SentenceExample → List ScoreDict × List ℚ
  | none, _, _, [] => ([], [])
  | some c, cas, ch, [] =>
      let r := ea ((get_scores cas c sf).1.take k) (ch.getD [])
      ([r.1], [r.2])
  | cc, cas, ch, ex :: rest =>
      let hs := pySplitNl ex.highlights
      if some ex.context = cc then
        evalLoop ea sf k cc (cas ++ [ex.sentence]) ch rest
      else
        match cc with
        | none => evalLoop ea sf k (some ex.context) [ex.sentence] (some hs) rest
        | some c =>
            let r := ea ((get_scores cas c sf).1.take k) hs
            let rest2 := evalLoop ea sf k (some ex.context) [ex.sentence] (some hs) rest
            (r.1 :: rest2.1, r.2 :: rest2.2)

/-- Embedding of `test.evaluate_model` (lines 15-51): run the loop from the
empty initial state, then aggregate (`compute_avg_dict` of the rouges and
`np.mean` of the similarities; `np.mean` of an empty list is NaN in the
source, a case outside every settled claim). -/
def evaluate_model (ea : List String → List String → ScoreDict × ℚ)
    (sf : List String → String → List ℚ) (k : ℕ)
    (dataset : List SentenceExample) : Option ScoreDict × ℚ :=
  let rs := evalLoop ea sf k none [] none dataset
  (compute_avg_dict rs.1, pyMean rs.2)

/-- Embedding of `test.evaluate_article` (lines 54-72). Modelled from the
spec in its callee: `compute_labels` is imported by test.py from utils but
defined nowhere in the repository; per specification section 4.3
(LabelScorer, test mode) it yields a `ScoreDict` and an embedding
similarity per candidate, so it enters as an opaque parameter. The `none`
case is the failure of `compute_avg_dict` on an empty prediction list. -/
def evaluate_article (computeLabels : String → List String → ScoreDict × ℚ)
    (highlights_pred highlights_gt : List String) : Option (ScoreDict × ℚ) :=
  let results := highlights_pred.map (fun h => computeLabels h highlights_gt)
  match compute_avg_dict (results.map (fun r => r.1)) with
  | none => none
  | some d => some (d, pyMean (results.map (fun r => r.2)))

/-- The maximal runs of adjacent rows sharing a context — the groups the
specification's Evaluator state machine is about. -/
def contextRuns : List SentenceExample → List (List SentenceExample)
  | [] => []
  | e :: rest =>
      (e :: rest.takeWhile (fun x => x.context == e.context)) ::
        contextRuns (rest.dropWhile (fun x => x.context == e.context))
termination_by l => l.length
decreasing_by
  simp only [List.length_cons]
  exact Nat.lt_succ_of_le
    ((List.dropWhile_sublist
      (fun x : SentenceExample => x.context == e.context)).length_le)

/-- The context of a run (its rows all share it). -/
def runCtx : List SentenceExample → String
  | [] => ""
  | e :: _ => e.context

/-- The sentences of a run, in stream order. -/
def runSents (r : List SentenceExample) : List String :=
  r.map (fun e => e.sentence)

/-- Closing one group: rank the accumulated sentences against the group
context, truncate to the top `k`, hand the truncation and a reference
highlight list to the scorer (test.py lines 31-32 and 46-47). -/
def closeGroup (ea : List String → List String → ScoreDict × ℚ)
    (sf : List String → String → List ℚ) (k : ℕ)
    (c : String) (sents refs : List String) : ScoreDict × ℚ :=
  ea ((get_scores sents c sf).1.take k) refs

/-- Reference recursion mirroring `evalLoop` with an open group, emitting
the closed groups as pairs; used to relate the loop to `contextRuns`. -/
def emitSpec (ea : List String → List String → ScoreDict × ℚ)
    (sf : List String → String → List ℚ) (k : ℕ) :
    String → List String → List String → List SentenceExample →
    List (ScoreDict × ℚ)
  | c, sents, refs, [] => [closeGroup ea sf k c sents refs]
  | c, sents, refs, e :: rest =>
      if e.context = c then
        emitSpec ea sf k c (sents ++ [e.sentence]) refs rest
      else
        closeGroup ea sf k c sents (pySplitNl e.highlights) ::
          emitSpec ea sf k e.context [e.sentence] (pySplitNl e.highlights) rest

/-- Rows with equal contexts are contiguous: between two rows of one
context no row of another context occurs (the load-bearing ordering
invariant of specification section 5). -/
def ContiguousCtx (ds : List SentenceExample) : Prop :=
  ∀ i j l : Fin ds.length, i ≤ j → j ≤ l →
    (ds.get i).context = (ds.get l).context →
    (ds.get j).context = (ds.get i).context

instance (ds : List SentenceExample) : Decidable (ContiguousCtx ds) := by
  unfold ContiguousCtx
  infer_instance

/-- A two-article stream: one sentence of article A with highlights "HA",
then one sentence of article B with highlights "HB". -/
def crossDs : List SentenceExample :=
  [⟨"s1", "A", "HA"⟩, ⟨"s2", "B", "HB"⟩]

/-- A scorer marking which reference list it received: 1 for A's
highlights, 2 for B's highlights. -/
def crossEa : List String → List String → ScoreDict × ℚ :=
  fun _ refs =>
    (zeroScoreDict, if refs = ["HA"] then 1 else if refs = ["HB"] then 2 else 0)

/-- A five-row stream with contexts A, A, B, B, B. -/
def groupDs : List SentenceExample :=
  [⟨"a1", "A", "HA"⟩, ⟨"a2", "A", "HA"⟩,
   ⟨"b1", "B", "HB"⟩, ⟨"b2", "B", "HB"⟩, ⟨"b3", "B", "HB"⟩]

/-- A constant group scorer for instantiating the grouping theorem. -/
def constEa : List String → List String → ScoreDict × ℚ :=
  fun _ _ => (zeroScoreDict, 0)

/-! ## Module-level names of utils.py and the imports of test.py -/

/-- The names bound at module level in utils.py: its thirteen top-level
functions and classes and its explicitly imported names. The remaining
import, `from math import *`, binds only the public names of the `math`
module (`ceil`, `sqrt`, `pi`, ...), none of which is called
`compute_labels`. -/
def utilsModuleNames : List String :=
  ["clean_dataset", "prepare_dataset", "compute_rouges",
   "compute_similarities", "compute_mrr_single_doc", "is_similar_string",
   "aggregate_test_scores", "get_scores", "trigram_blocking", "Explorer",
   "setup_logging", "LogCallback", "make_deterministic",
   "spacy", "Dataset", "pd", "defaultdict", "sns", "plt", "gc", "time",
   "tqdm", "load", "os", "sys", "torch", "random", "logging", "traceback",
   "np", "join", "Rouge", "difflib", "cpu_count", "statistics",
   "load_dataset", "load_from_disk", "loggingDatasets",
   "loggingTransformer", "TrainerCallback", "util_st", "ngrams"]

/-- The names test.py line 5 imports from utils:
`from utils import setup_logging, make_deterministic, prepare_dataset,
get_scores, compute_labels`. -/
def testImportsFromUtils : List String :=
  ["setup_logging", "make_deterministic", "prepare_dataset", "get_scores",
   "compute_labels"]

/-- A concrete two-element score list with a rouge-2 f-score tie, used to
instantiate the selection theorem for `aggregate_test_scores`. -/
def atsWitnessList : List ScoreDict :=
  [⟨⟨2, 0, 0⟩, ⟨1, 0, 0⟩, ⟨0, 0, 0⟩⟩, ⟨⟨3, 0, 0⟩, ⟨1, 0, 0⟩, ⟨0, 0, 0⟩⟩]

/-- A concrete two-element score list used to instantiate the averaging
theorem for `compute_avg_dict`. -/
def avgWitnessList : List ScoreDict :=
  [⟨⟨2, 0, 0⟩, ⟨1, 0, 0⟩, ⟨0, 0, 0⟩⟩, ⟨⟨4, 0, 0⟩, ⟨1, 0, 0⟩, ⟨0, 0, 0⟩⟩]

/-! ## Theorems for trigram blocking (claim C3) -/

theorem tbGo_sublist (l : List String) : ∀ seen, (tbGo seen l).Sublist l := by
  induction l with
  | nil => intro seen; simp [tbGo]
  | cons s rest ih =>
      intro seen
      simp only [tbGo]
      split
      · exact (ih seen).cons s
      · exact (ih (seen ++ sentTrigrams s)).cons₂ s

theorem mem_tbGo_not_seen (l : List String) :
    ∀ seen x, x ∈ tbGo seen l → ∀ t ∈ sentTrigrams x, t ∉ seen := by
  induction l with
  | nil => intro seen x hx; simp [tbGo] at hx
  | cons s rest ih =>
      intro seen x hx t ht
      simp only [tbGo] at hx
      split at hx
      · exact ih seen x hx t ht
      · rcases List.mem_cons.mp hx with hxs | hxrest
        · subst hxs
          intro hcon
          rename_i hrej
          exact hrej (List.any_eq_true.mpr ⟨t, ht, by simpa using hcon⟩)
        · intro hcon
          exact ih (seen ++ sentTrigrams s) x hxrest t ht (List.mem_append_left _ hcon)

theorem tbGo_pairwise (l : List String) :
    ∀ seen, (tbGo seen l).Pairwise (fun a b => ∀ t ∈ sentTrigrams b, t ∉ sentTrigrams a) := by
  induction l with
  | nil => intro seen; simp [tbGo]
  | cons s rest ih =>
      intro seen
      simp only [tbGo]
      split
      · exact ih seen
      · refine List.Pairwise.cons ?_ (ih (seen ++ sentTrigrams s))
        intro b hb t ht
        exact fun hcon =>
          mem_tbGo_not_seen rest _ b hb t ht (List.mem_append_right _ hcon)

theorem mem_tbGo_of_no_trigram (l : List String) :
    ∀ seen x, x ∈ l → sentTrigrams x = [] → x ∈ tbGo seen l := by
  induction l with
  | nil => intro seen x hx; simp at hx
  | cons s rest ih =>
      intro seen x hx hempty
      simp only [tbGo]
      rcases List.mem_cons.mp hx with hxs | hxrest
      · subst hxs
        rw [hempty]
        simp
      · split
        · exact ih seen x hxrest hempty
        · exact List.mem_cons_of_mem s (ih _ x hxrest hempty)

theorem sentTrigrams_eq_nil_of_short (s : String) (h : (pyLowerWords s).length < 3) :
    sentTrigrams s = [] := by
  unfold sentTrigrams
  rcases hw : pyLowerWords s with _ | ⟨a, _ | ⟨b, _ | ⟨c, rest⟩⟩⟩ <;>
    first
      | rfl
      | (exfalso; rw [hw] at h; simp at h; omega)

/-- C3: the output of `trigram_blocking` is a subsequence of the input in
the same relative order; no output sentence shares any lower-cased word
trigram with an earlier output sentence; and every input sentence with
fewer than 3 (lower-cased, whitespace-separated) words has an empty trigram
set and is always accepted into the output. -/
theorem trigram_blocking_spec (sentences : List String) :
    (trigram_blocking sentences).Sublist sentences ∧
    (trigram_blocking sentences).Pairwise
      (fun a b => ∀ t ∈ sentTrigrams b, t ∉ sentTrigrams a) ∧
    ∀ s ∈ sentences, (pyLowerWords s).length < 3 → s ∈ trigram_blocking sentences := by
  refine ⟨tbGo_sublist sentences [], tbGo_pairwise sentences [], ?_⟩
  intro s hs hshort
  exact mem_tbGo_of_no_trigram sentences [] s hs (sentTrigrams_eq_nil_of_short s hshort)

/-- Witness for C3 at a concrete input: the short sentence "go on" (2 words)
is accepted even though it follows longer sentences. -/
theorem trigram_blocking_spec_witness :
    (trigram_blocking ["the cat sat down", "the cat sat again", "go on"]).Sublist
        ["the cat sat down", "the cat sat again", "go on"] ∧
    (trigram_blocking ["the cat sat down", "the cat sat again", "go on"]).Pairwise
      (fun a b => ∀ t ∈ sentTrigrams b, t ∉ sentTrigrams a) ∧
    "go on" ∈ trigram_blocking ["the cat sat down", "the cat sat again", "go on"] := by
  refine ⟨(trigram_blocking_spec _).1, (trigram_blocking_spec _).2.1, ?_⟩
  exact (trigram_blocking_spec _).2.2 "go on" (by decide) (by decide)

/-! ## Theorems for the ranker (claim C9) -/

theorem map_getD_range {α : Type} (l : List α) (d : α) :
    (List.range l.length).map (fun i => l.getD i d) = l := by
  apply List.ext_getElem
  · simp
  · intro i h1 h2
    simp [List.getD_eq_getElem?_getD, List.getElem?_eq_getElem h2]

theorem sortedIndices_perm (scores : List ℚ) :
    (sortedIndices scores).Perm (List.range scores.length) :=
  List.perm_insertionSort (rankLe scores) (List.range scores.length)

theorem sortedIndices_pairwise (scores : List ℚ) :
    (sortedIndices scores).Pairwise (rankLe scores) :=
  List.sorted_insertionSort (rankLe scores) (List.range scores.length)

theorem get_scores_fst_eq (sentences : List String) (context : String)
    (model : List String → String → List ℚ) :
    (get_scores sentences context model).1 =
      (sortedIndices (model sentences context)).map
        (fun i => sentences.getD i "") := rfl

theorem get_scores_snd_eq (sentences : List String) (context : String)
    (model : List String → String → List ℚ) :
    (get_scores sentences context model).2 =
      (sortedIndices (model sentences context)).map
        (fun i => (model sentences context).getD i 0) := rfl

theorem get_scores_fst_perm (sentences : List String) (context : String)
    (model : List String → String → List ℚ)
    (hlen : (model sentences context).length = sentences.length) :
    (get_scores sentences context model).1.Perm sentences := by
  have h1 : (sortedIndices (model sentences context)).map
      (fun i => sentences.getD i "") |>.Perm
      ((List.range sentences.length).map (fun i => sentences.getD i "")) :=
    (hlen ▸ sortedIndices_perm (model sentences context)).map _
  rw [get_scores_fst_eq]
  exact h1.trans (by rw [map_getD_range])

/-- C9: `get_scores` returns the input sentences and their predicted scores
as two parallel sequences (images of one index permutation), ordered by
descending score with ties broken by original input order (the total order
`rankLe`); in particular, for model scores 0.2, 0.9, 0.5 on sentences
"a", "b", "c" it returns (["b", "c", "a"], [0.9, 0.5, 0.2]). -/
theorem get_scores_spec (sentences : List String) (context : String)
    (model : List String → String → List ℚ)
    (hlen : (model sentences context).length = sentences.length) :
    (get_scores sentences context model).1.Perm sentences ∧
    (get_scores sentences context model).2.Perm (model sentences context) ∧
    (sortedIndices (model sentences context)).Perm
      (List.range sentences.length) ∧
    (sortedIndices (model sentences context)).Pairwise
      (rankLe (model sentences context)) ∧
    (get_scores sentences context model).1 =
      (sortedIndices (model sentences context)).map
        (fun i => sentences.getD i "") ∧
    (get_scores sentences context model).2 =
      (sortedIndices (model sentences context)).map
        (fun i => (model sentences context).getD i 0) ∧
    get_scores ["a", "b", "c"] "ctx" exampleRankModel =
      (["b", "c", "a"], [9/10, 1/2, 1/5]) := by
  refine ⟨get_scores_fst_perm sentences context model hlen, ?_,
    hlen ▸ sortedIndices_perm _, sortedIndices_pairwise _, rfl, rfl, ?_⟩
  · have h1 : (sortedIndices (model sentences context)).map
        (fun i => (model sentences context).getD i 0) |>.Perm
        ((List.range (model sentences context).length).map
          (fun i => (model sentences context).getD i 0)) :=
      (sortedIndices_perm (model sentences context)).map _
    rw [get_scores_snd_eq]
    exact h1.trans (by rw [map_getD_range])
  · have hr : sortedIndices [1/5, 9/10, 1/2] = [1, 2, 0] := by
      norm_num [sortedIndices, List.insertionSort, List.orderedInsert, rankLe,
        List.range_succ]
    have h2 : exampleRankModel ["a", "b", "c"] "ctx" = [1/5, 9/10, 1/2] := rfl
    rw [Prod.ext_iff, get_scores_fst_eq, get_scores_snd_eq, h2, hr]
    exact ⟨rfl, rfl⟩

/-- Witness for C9 at a concrete input: a model scoring every sentence 0. -/
theorem get_scores_spec_witness :
    ((get_scores ["x", "y"] "c" zeroModel).1.Perm ["x", "y"] ∧
      (get_scores ["x", "y"] "c" zeroModel).2.Perm (zeroModel ["x", "y"] "c") ∧
      (sortedIndices (zeroModel ["x", "y"] "c")).Perm
        (List.range (["x", "y"] : List String).length) ∧
      (sortedIndices (zeroModel ["x", "y"] "c")).Pairwise
        (rankLe (zeroModel ["x", "y"] "c")) ∧
      (get_scores ["x", "y"] "c" zeroModel).1 =
        (sortedIndices (zeroModel ["x", "y"] "c")).map
          (fun i => (["x", "y"] : List String).getD i "") ∧
      (get_scores ["x", "y"] "c" zeroModel).2 =
        (sortedIndices (zeroModel ["x", "y"] "c")).map
          (fun i => (zeroModel ["x", "y"] "c").getD i 0) ∧
      get_scores ["a", "b", "c"] "ctx" exampleRankModel =
        (["b", "c", "a"], [9/10, 1/2, 1/5])) :=
  get_scores_spec ["x", "y"] "c" zeroModel (by simp [zeroModel])

/-! ## Theorems for the label scorer (claims C4, C5, C6) -/

/-- C4: a degenerate candidate sentence (whitespace-only, or without any
alphabetic character) yields the entry `0.0` in train mode and the all-zero
`ScoreDict` in test mode, for every ROUGE engine whatsoever — the engine is
never consulted for that sentence. -/
theorem compute_rouges_degenerate (sentences references : List String)
    (agg : String) (is_test : Bool) (i : ℕ) (hi : i < sentences.length)
    (hagg : agg = "max" ∨ agg = "average" ∨ agg = "harmonic")
    (hdeg : isDegenerate (sentences.get ⟨i, hi⟩) = true) :
    ∀ engine, ∃ l,
      compute_rouges sentences references agg is_test engine = Except.ok l ∧
      l.get? i = some (if is_test then RougeOut.testScore (some zeroScoreDict)
        else RougeOut.trainScore 0) := by
  intro engine
  unfold compute_rouges
  rw [if_pos hagg]
  refine ⟨_, rfl, ?_⟩
  rw [List.get?_eq_getElem?, List.getElem?_map,
    List.getElem?_eq_getElem hi]
  simp only [List.get_eq_getElem] at hdeg
  simp [hdeg]

/-- Witness for C4: the empty candidate at index 0, train mode, "max"
aggregation, an engine that always fails. -/
theorem compute_rouges_degenerate_witness :
    ∃ l, compute_rouges ["", "123"] ["x"] "max" false (fun _ _ => none) =
        Except.ok l ∧
      l.get? 0 = some (if false then RougeOut.testScore (some zeroScoreDict)
        else RougeOut.trainScore 0) :=
  compute_rouges_degenerate ["", "123"] ["x"] "max" false 0 (by decide)
    (by decide) (by decide) (fun _ _ => none)

/-- C5: an aggregation identifier outside "max"/"average"/"harmonic" makes
both `compute_rouges` and `compute_similarities` fail fast with a
`ValueError` (`Except.error`), surfaced to the caller; an identifier inside
the set never produces such an error. -/
theorem invalid_aggregation_spec (sentences references : List String)
    (agg : String) (is_test : Bool)
    (engine : String → String → Option ScoreDict)
    (cos : String → String → ℚ) :
    (agg ∉ validAggs →
      (∃ msg, compute_rouges sentences references agg is_test engine =
        Except.error msg) ∧
      (∃ msg, compute_similarities sentences references cos agg =
        Except.error msg)) ∧
    (agg ∈ validAggs →
      (∃ l, compute_rouges sentences references agg is_test engine =
        Except.ok l) ∧
      (∃ l, compute_similarities sentences references cos agg =
        Except.ok l)) := by
  constructor
  · intro h
    have h1 : ¬(agg = "max" ∨ agg = "average" ∨ agg = "harmonic") := by
      simpa [validAggs] using h
    push_neg at h1
    obtain ⟨hm, ha, hh⟩ := h1
    constructor
    · refine ⟨String.append "Invalid aggregation parameter: " agg, ?_⟩
      unfold compute_rouges
      rw [if_neg (by push_neg; exact ⟨hm, ha, hh⟩)]
    · refine ⟨String.append "Invalid aggregation parameter: " agg, ?_⟩
      simp [compute_similarities, hm, ha, hh]
  · intro h
    have h1 : agg = "max" ∨ agg = "average" ∨ agg = "harmonic" := by
      simpa [validAggs] using h
    constructor
    · exact ⟨_, by unfold compute_rouges; rw [if_pos h1]⟩
    · rcases h1 with h1 | h1 | h1 <;> subst h1
      · exact ⟨(sentences.map (fun s => references.map (fun r => cos s r))).map pyMax,
          by simp [compute_similarities]⟩
      · exact ⟨(sentences.map (fun s => references.map (fun r => cos s r))).map pyMean,
          by simp [compute_similarities]⟩
      · exact ⟨(sentences.map (fun s => references.map (fun r => cos s r))).map
            (fun row => 1 / pyMean (row.map (fun x => 1 / x))),
          by simp [compute_similarities]⟩

/-- Witness for C5: the invalid identifier "median" fails, the valid
identifier "harmonic" does not. -/
theorem invalid_aggregation_spec_witness :
    ((∃ msg, compute_rouges ["a"] ["b"] "median" false (fun _ _ => none) =
        Except.error msg) ∧
      (∃ msg, compute_similarities ["a"] ["b"] (fun _ _ => 0) "median" =
        Except.error msg)) ∧
    ((∃ l, compute_rouges ["a"] ["b"] "harmonic" false (fun _ _ => none) =
        Except.ok l) ∧
      (∃ l, compute_similarities ["a"] ["b"] (fun _ _ => 0) "harmonic" =
        Except.ok l)) :=
  ⟨(invalid_aggregation_spec ["a"] ["b"] "median" false (fun _ _ => none)
      (fun _ _ => 0)).1 (by decide),
    (invalid_aggregation_spec ["a"] ["b"] "harmonic" false (fun _ _ => none)
      (fun _ _ => 0)).2 (by decide)⟩

theorem atsAux (l : List ScoreDict) :
    l ≠ [] → (∀ d ∈ l, 0 ≤ d.rouge2.f) →
    ∃ (i : ℕ) (hi : i < l.length),
      l.foldl atsStep ((0 : ℚ), (none : Option ScoreDict)) =
        ((l.get ⟨i, hi⟩).rouge2.f, some (l.get ⟨i, hi⟩)) ∧
      (∀ d ∈ l, d.rouge2.f ≤ (l.get ⟨i, hi⟩).rouge2.f) ∧
      ∀ j (hj : j < l.length), i < j →
        (l.get ⟨j, hj⟩).rouge2.f < (l.get ⟨i, hi⟩).rouge2.f := by
  induction l using List.reverseRecOn with
  | nil => intro h; exact absurd rfl h
  | append_singleton l d ih =>
      intro _ hnn
      have hlastget : ∀ (hj : l.length < (l ++ [d]).length),
          (l ++ [d]).get ⟨l.length, hj⟩ = d := by
        intro hj
        simp only [List.get_eq_getElem]
        exact List.getElem_concat_length _ _ _ rfl _
      have hleftget : ∀ j (hj : j < (l ++ [d]).length) (hjl : j < l.length),
          (l ++ [d]).get ⟨j, hj⟩ = l.get ⟨j, hjl⟩ := by
        intro j hj hjl
        simp only [List.get_eq_getElem]
        exact List.getElem_append_left hjl
      rcases eq_or_ne l [] with hl | hl
      · subst hl
        have h0 : (0 : ℚ) ≤ d.rouge2.f := hnn d (by simp)
        refine ⟨0, by simp, ?_, ?_, ?_⟩
        · simp [atsStep, h0]
        · intro d' hd'
          simp only [List.nil_append, List.mem_singleton] at hd'
          subst hd'
          simp
        · intro j hj hij
          simp only [List.nil_append, List.length_singleton] at hj
          omega
      · have hnl : ∀ d' ∈ l, 0 ≤ d'.rouge2.f := fun d' hd' =>
          hnn d' (List.mem_append_left _ hd')
        obtain ⟨i, hi, hfold, hmax, hlast⟩ := ih hl hnl
        rw [List.foldl_append, List.foldl_cons, List.foldl_nil, hfold]
        by_cases hcmp : (l.get ⟨i, hi⟩).rouge2.f ≤ d.rouge2.f
        · refine ⟨l.length, by simp, ?_, ?_, ?_⟩
          · rw [hlastget (by simp)]
            unfold atsStep
            rw [if_pos hcmp]
          · intro d' hd'
            rw [hlastget (by simp)]
            rcases List.mem_append.mp hd' with h | h
            · exact (hmax d' h).trans hcmp
            · simp only [List.mem_singleton] at h
              subst h
              exact le_refl _
          · intro j hj hij
            exfalso
            simp only [List.length_append, List.length_singleton] at hj
            omega
        · refine ⟨i, by simp only [List.length_append]; omega, ?_, ?_, ?_⟩
          · rw [hleftget i _ hi]
            unfold atsStep
            rw [if_neg hcmp]
          · intro d' hd'
            rw [hleftget i _ hi]
            rcases List.mem_append.mp hd' with h | h
            · exact hmax d' h
            · simp only [List.mem_singleton] at h
              subst h
              exact le_of_lt (lt_of_not_le hcmp)
          · intro j hj hij
            rw [hleftget i _ hi]
            rcases Nat.lt_or_ge j l.length with hjl | hjl
            · rw [hleftget j _ hjl]
              exact hlast j hjl hij
            · have hj2 : j = l.length := by
                simp only [List.length_append, List.length_singleton] at hj
                omega
              subst hj2
              rw [hlastget _]
              exact lt_of_not_le hcmp

/-- C6: in test mode, for a non-empty list of per-reference score
dictionaries (with non-negative rouge-2 f-scores, as ROUGE produces),
`aggregate_test_scores` returns the entire dictionary of the reference
whose rouge-2 f-score is highest, ties broken in favour of the later
occurrence (no strictly later entry attains the maximum); rouge-1 and
rouge-l of the result therefore come from that same reference. -/
theorem aggregate_test_scores_spec (scores : List ScoreDict)
    (hne : scores ≠ []) (hnn : ∀ d ∈ scores, 0 ≤ d.rouge2.f) :
    ∃ (i : ℕ) (hi : i < scores.length),
      aggregate_test_scores scores = some (scores.get ⟨i, hi⟩) ∧
      (∀ d ∈ scores, d.rouge2.f ≤ (scores.get ⟨i, hi⟩).rouge2.f) ∧
      ∀ j (hj : j < scores.length), i < j →
        (scores.get ⟨j, hj⟩).rouge2.f < (scores.get ⟨i, hi⟩).rouge2.f := by
  obtain ⟨i, hi, hfold, hmax, hlast⟩ := atsAux scores hne hnn
  exact ⟨i, hi, by simp [aggregate_test_scores, hfold], hmax, hlast⟩

/-- Witness for C6: two dictionaries tying on rouge-2 f-score; the theorem
applies, and the selected index must be the later one. -/
theorem aggregate_test_scores_spec_witness :
    ∃ (i : ℕ) (hi : i < atsWitnessList.length),
      aggregate_test_scores atsWitnessList =
        some (atsWitnessList.get ⟨i, hi⟩) ∧
      (∀ d ∈ atsWitnessList,
        d.rouge2.f ≤ (atsWitnessList.get ⟨i, hi⟩).rouge2.f) ∧
      ∀ j (hj : j < atsWitnessList.length), i < j →
        (atsWitnessList.get ⟨j, hj⟩).rouge2.f <
          (atsWitnessList.get ⟨i, hi⟩).rouge2.f :=
  aggregate_test_scores_spec atsWitnessList (by decide) (by decide)

/-! ## Theorems for the aggregate report (claim C8) -/

/-- C8: on a non-empty list of score dictionaries, `compute_avg_dict`
returns the dictionary whose every leaf is the arithmetic mean of the
corresponding input leaves; on the empty list it fails (Python divides by
zero), modelled as `none`. -/
theorem compute_avg_dict_spec (l : List ScoreDict) :
    (l ≠ [] → compute_avg_dict l = some ⟨
      ⟨(l.map (fun d => d.rouge1.f)).sum / l.length,
       (l.map (fun d => d.rouge1.p)).sum / l.length,
       (l.map (fun d => d.rouge1.r)).sum / l.length⟩,
      ⟨(l.map (fun d => d.rouge2.f)).sum / l.length,
       (l.map (fun d => d.rouge2.p)).sum / l.length,
       (l.map (fun d => d.rouge2.r)).sum / l.length⟩,
      ⟨(l.map (fun d => d.rougeL.f)).sum / l.length,
       (l.map (fun d => d.rougeL.p)).sum / l.length,
       (l.map (fun d => d.rougeL.r)).sum / l.length⟩⟩) ∧
    compute_avg_dict [] = none := by
  refine ⟨fun h => ?_, rfl⟩
  unfold compute_avg_dict
  rw [if_neg (by simpa [List.isEmpty_iff] using h)]
  simp only [pyMean, List.length_map]

/-- Witness for C8 on two concrete dictionaries. -/
theorem compute_avg_dict_spec_witness :
    (avgWitnessList ≠ [] →
      compute_avg_dict avgWitnessList = some ⟨
        ⟨(avgWitnessList.map (fun d => d.rouge1.f)).sum / avgWitnessList.length,
         (avgWitnessList.map (fun d => d.rouge1.p)).sum / avgWitnessList.length,
         (avgWitnessList.map (fun d => d.rouge1.r)).sum / avgWitnessList.length⟩,
        ⟨(avgWitnessList.map (fun d => d.rouge2.f)).sum / avgWitnessList.length,
         (avgWitnessList.map (fun d => d.rouge2.p)).sum / avgWitnessList.length,
         (avgWitnessList.map (fun d => d.rouge2.r)).sum / avgWitnessList.length⟩,
        ⟨(avgWitnessList.map (fun d => d.rougeL.f)).sum / avgWitnessList.length,
         (avgWitnessList.map (fun d => d.rougeL.p)).sum / avgWitnessList.length,
         (avgWitnessList.map (fun d => d.rougeL.r)).sum / avgWitnessList.length⟩⟩) ∧
    compute_avg_dict [] = none :=
  compute_avg_dict_spec avgWitnessList

/-! ## Theorems for the text cleaner (claim C7) -/

theorem cleanRecord_spec (split : String → List String) (d : RawRecord)
    (r : CleanedRecord) (h : cleanRecord split d = some r) :
    (3 ≤ r.highlights.length ∧ r.highlights.length ≤ 5) ∧
    300 ≤ r.article.length ∧
    ∀ hl ∈ r.highlights, ∃ s : String,
      (3 < (splitOnChar ' ' s.data).length ∧ hasAlpha s = true) ∧
      hl = cleanPiece s := by
  simp only [cleanRecord] at h
  split_ifs at h with h1 h2
  rcases h1 with ⟨h1a, h1b⟩
  injection h with h
  subst h
  refine ⟨⟨by simpa using h1a, by simpa using h1b⟩, by simpa using h2, ?_⟩
  intro hl hhl
  simp only [List.mem_map] at hhl
  obtain ⟨s, hs, hls⟩ := hhl
  rw [List.mem_filter] at hs
  obtain ⟨-, hkeep⟩ := hs
  rw [hlKeep, Bool.and_eq_true, decide_eq_true_eq] at hkeep
  exact ⟨s, ⟨hkeep.1, hkeep.2⟩, hls.symm⟩

theorem cleanLoop_spec (split : String → List String) (num : ℕ) :
    ∀ (ds : List RawRecord) (acc out : List CleanedRecord),
      acc.length ≤ num →
      cleanLoop split num ds acc = some out →
      out.length = num ∧
        ∀ r ∈ out, r ∈ acc ∨ ∃ d, cleanRecord split d = some r := by
  intro ds
  induction ds with
  | nil =>
      intro acc out hle h
      simp only [cleanLoop] at h
      split_ifs at h with hge
      injection h with h
      subst h
      exact ⟨le_antisymm hle hge, fun r hr => Or.inl hr⟩
  | cons d rest ih =>
      intro acc out hle h
      simp only [cleanLoop] at h
      split_ifs at h with hge
      · injection h with h
        subst h
        exact ⟨le_antisymm hle hge, fun r hr => Or.inl hr⟩
      · rcases hcr : cleanRecord split d with _ | r'
        · rw [hcr] at h
          exact ih acc out hle h
        · rw [hcr] at h
          have hlen : (acc ++ [r']).length ≤ num := by
            simp only [List.length_append, List.length_singleton]
            omega
          obtain ⟨hout, hmem⟩ := ih (acc ++ [r']) out hlen h
          refine ⟨hout, fun r hr => ?_⟩
          rcases hmem r hr with hmem1 | hmem1
          · rcases List.mem_append.mp hmem1 with h2 | h2
            · exact Or.inl h2
            · simp only [List.mem_singleton] at h2
              subst h2
              exact Or.inr ⟨d, hcr⟩
          · exact Or.inr hmem1

/-- C7: whenever `clean_dataset` returns a value at all, it is a sequence
of exactly `num_samples` records (exhausting the shuffled source first
gives `none`, Python's `IndexError`), and every returned record has its
kept highlight count in the interval from 3 to 5, an article of at least
300 characters, and each kept highlight derived (newline removal plus
strip) from a sentence with more than 3 space-separated fields and at
least one alphabetic character. -/
theorem clean_dataset_spec (split : String → List String)
    (shuffled : List RawRecord) (num_samples : ℕ) (out : List CleanedRecord)
    (h : clean_dataset split shuffled num_samples = some out) :
    out.length = num_samples ∧
    ∀ r ∈ out,
      (3 ≤ r.highlights.length ∧ r.highlights.length ≤ 5) ∧
      300 ≤ r.article.length ∧
      ∀ hl ∈ r.highlights, ∃ s : String,
        (3 < (splitOnChar ' ' s.data).length ∧ hasAlpha s = true) ∧
        hl = cleanPiece s := by
  obtain ⟨hlen, hmem⟩ :=
    cleanLoop_spec split num_samples shuffled [] out (by simp) h
  refine ⟨hlen, fun r hr => ?_⟩
  rcases hmem r hr with hc | ⟨d, hd⟩
  · simp at hc
  · exact cleanRecord_spec split d r hd

set_option maxRecDepth 16000 in
/-- Witness for C7 on a one-record source cleaned into one record. -/
theorem clean_dataset_spec_witness :
    cleanOutW.length = 1 ∧
    ∀ r ∈ cleanOutW,
      (3 ≤ r.highlights.length ∧ r.highlights.length ≤ 5) ∧
      300 ≤ r.article.length ∧
      ∀ hl ∈ r.highlights, ∃ s : String,
        (3 < (splitOnChar ' ' s.data).length ∧ hasAlpha s = true) ∧
        hl = cleanPiece s :=
  clean_dataset_spec cleanSplitW cleanDsW 1 cleanOutW (by decide)

/-! ## Theorems for the evaluator (claims C1, C2) -/

theorem evalLoop_first (ea : List String → List String → ScoreDict × ℚ)
    (sf : List String → String → List ℚ) (k : ℕ)
    (e : SentenceExample) (rest : List SentenceExample) :
    evalLoop ea sf k none [] none (e :: rest) =
      evalLoop ea sf k (some e.context) [e.sentence]
        (some (pySplitNl e.highlights)) rest := by
  simp [evalLoop]

theorem evalLoop_eq_emitSpec (ea : List String → List String → ScoreDict × ℚ)
    (sf : List String → String → List ℚ) (k : ℕ) :
    ∀ (ds : List SentenceExample) (c : String) (sents refs : List String),
      evalLoop ea sf k (some c) sents (some refs) ds =
        ((emitSpec ea sf k c sents refs ds).map Prod.fst,
         (emitSpec ea sf k c sents refs ds).map Prod.snd) := by
  intro ds
  induction ds with
  | nil =>
      intro c sents refs
      simp [evalLoop, emitSpec, closeGroup]
  | cons e rest ih =>
      intro c sents refs
      by_cases hc : e.context = c
      · have hc2 : some e.context = some c := by rw [hc]
        simp only [evalLoop, emitSpec, if_pos hc, if_pos hc2]
        exact ih c (sents ++ [e.sentence]) refs
      · have hc2 : ¬(some e.context = some c) := by
          intro h
          exact hc (Option.some_injective _ h)
        simp only [evalLoop, emitSpec, if_neg hc, if_neg hc2]
        rw [ih e.context [e.sentence] (pySplitNl e.highlights)]
        simp [closeGroup]

theorem emitSpec_runs (ea : List String → List String → ScoreDict × ℚ)
    (sf : List String → String → List ℚ) (k : ℕ) :
    ∀ (ds : List SentenceExample) (c : String) (sents refs : List String),
      (emitSpec ea sf k c sents refs ds).length =
        (contextRuns (ds.dropWhile (fun x => x.context == c))).length + 1 ∧
      (∃ rf, (emitSpec ea sf k c sents refs ds).get? 0 =
        some (closeGroup ea sf k c
          (sents ++ (ds.takeWhile (fun x => x.context == c)).map
            (fun e => e.sentence)) rf)) ∧
      ∀ i (hi : i <
          (contextRuns (ds.dropWhile (fun x => x.context == c))).length),
        ∃ rf, (emitSpec ea sf k c sents refs ds).get? (i + 1) =
          some (closeGroup ea sf k
            (runCtx ((contextRuns
              (ds.dropWhile (fun x => x.context == c))).get ⟨i, hi⟩))
            (runSents ((contextRuns
              (ds.dropWhile (fun x => x.context == c))).get ⟨i, hi⟩)) rf) := by
  intro ds
  induction ds with
  | nil =>
      intro c sents refs
      refine ⟨by simp [emitSpec, contextRuns], ⟨refs, by simp [emitSpec]⟩, ?_⟩
      intro i hi
      simp [contextRuns] at hi
  | cons e rest ih =>
      intro c sents refs
      by_cases hc : e.context = c
      · rw [show emitSpec ea sf k c sents refs (e :: rest) =
            emitSpec ea sf k c (sents ++ [e.sentence]) refs rest by
          simp only [emitSpec, if_pos hc]]
        have hd : List.dropWhile (fun x : SentenceExample => x.context == c)
            (e :: rest) = List.dropWhile (fun x => x.context == c) rest := by
          simp [List.dropWhile_cons, hc]
        have ht : List.takeWhile (fun x : SentenceExample => x.context == c)
            (e :: rest) =
            e :: List.takeWhile (fun x => x.context == c) rest := by
          simp [List.takeWhile_cons, hc]
        rw [hd, ht]
        obtain ⟨hlen, ⟨rf0, hhead⟩, htail⟩ :=
          ih c (sents ++ [e.sentence]) refs
        refine ⟨hlen, ⟨rf0, ?_⟩, htail⟩
        rw [hhead]
        simp
      · rw [show emitSpec ea sf k c sents refs (e :: rest) =
            closeGroup ea sf k c sents (pySplitNl e.highlights) ::
              emitSpec ea sf k e.context [e.sentence]
                (pySplitNl e.highlights) rest by
          simp only [emitSpec, if_neg hc]]
        have hd : List.dropWhile (fun x : SentenceExample => x.context == c)
            (e :: rest) = e :: rest := by
          simp [List.dropWhile_cons, hc]
        have ht : List.takeWhile (fun x : SentenceExample => x.context == c)
            (e :: rest) = [] := by
          simp [List.takeWhile_cons, hc]
        rw [hd, ht]
        obtain ⟨hlen, ⟨rf0, hhead⟩, htail⟩ :=
          ih e.context [e.sentence] (pySplitNl e.highlights)
        rw [show contextRuns (e :: rest) =
            (e :: rest.takeWhile (fun x => x.context == e.context)) ::
              contextRuns (rest.dropWhile
                (fun x => x.context == e.context)) from by rw [contextRuns]]
        refine ⟨?_, ⟨pySplitNl e.highlights, by simp⟩, ?_⟩
        · simp only [List.length_cons, hlen]
        · intro i hi
          match i with
          | 0 =>
              refine ⟨rf0, ?_⟩
              simp only [List.get?_cons_succ, hhead]
              simp [runCtx, runSents]
          | Nat.succ j =>
              simp only [List.length_cons] at hi
              have hj : j < (contextRuns (rest.dropWhile
                  (fun x => x.context == e.context))).length := by omega
              obtain ⟨rf, hrf⟩ := htail j hj
              refine ⟨rf, ?_⟩
              simp only [List.get?_cons_succ, hrf]
              congr 1

/-- C2: on a non-empty stream whose equal contexts are contiguous, the loop
of `evaluate_model` emits exactly one (ScoreDict, similarity) pair per
maximal run of identical contexts — the final open group included — and
the ranked sentence list used for the i-th emission is a permutation of
exactly the sentences of the i-th run (for any relevance model returning
one score per sentence). -/
theorem evaluate_model_grouping (ea : List String → List String → ScoreDict × ℚ)
    (sf : List String → String → List ℚ) (k : ℕ)
    (ds : List SentenceExample) (hne : ds ≠ []) (hcontig : ContiguousCtx ds)
    (hsf : ∀ s c, (sf s c).length = s.length) :
    (evalLoop ea sf k none [] none ds).1.length = (contextRuns ds).length ∧
    (evalLoop ea sf k none [] none ds).2.length = (contextRuns ds).length ∧
    ∀ i (hi : i < (contextRuns ds).length),
      ((get_scores (runSents ((contextRuns ds).get ⟨i, hi⟩))
          (runCtx ((contextRuns ds).get ⟨i, hi⟩)) sf).1).Perm
        (runSents ((contextRuns ds).get ⟨i, hi⟩)) ∧
      ∃ refs,
        (evalLoop ea sf k none [] none ds).1.get? i =
          some (closeGroup ea sf k (runCtx ((contextRuns ds).get ⟨i, hi⟩))
            (runSents ((contextRuns ds).get ⟨i, hi⟩)) refs).1 ∧
        (evalLoop ea sf k none [] none ds).2.get? i =
          some (closeGroup ea sf k (runCtx ((contextRuns ds).get ⟨i, hi⟩))
            (runSents ((contextRuns ds).get ⟨i, hi⟩)) refs).2 := by
  match ds, hne with
  | e :: rest, _ =>
    rw [evalLoop_first, evalLoop_eq_emitSpec]
    obtain ⟨hlen, ⟨rf0, hhead⟩, htail⟩ :=
      emitSpec_runs ea sf k rest e.context [e.sentence] (pySplitNl e.highlights)
    rw [show contextRuns (e :: rest) =
        (e :: rest.takeWhile (fun x => x.context == e.context)) ::
          contextRuns (rest.dropWhile
            (fun x => x.context == e.context)) from by rw [contextRuns]]
    simp only [List.length_map, List.length_cons]
    refine ⟨by rw [hlen], by rw [hlen], ?_⟩
    intro i hi
    constructor
    · exact get_scores_fst_perm _ _ sf (hsf _ _)
    · match i with
      | 0 =>
          refine ⟨rf0, ?_⟩
          rw [List.get?_map, List.get?_map, hhead]
          simp [runCtx, runSents]
      | Nat.succ j =>
          have hj : j < (contextRuns (rest.dropWhile
              (fun x => x.context == e.context))).length := by
            simpa using hi
          obtain ⟨rf, hrf⟩ := htail j hj
          refine ⟨rf, ?_⟩
          rw [List.get?_map, List.get?_map, hrf]
          constructor <;> simp [List.getElem_cons_succ]

/-- Witness for C2 on the five-row A,A,B,B,B stream. -/
theorem evaluate_model_grouping_witness :
    (evalLoop constEa zeroModel 3 none [] none groupDs).1.length =
      (contextRuns groupDs).length ∧
    (evalLoop constEa zeroModel 3 none [] none groupDs).2.length =
      (contextRuns groupDs).length ∧
    ∀ i (hi : i < (contextRuns groupDs).length),
      ((get_scores (runSents ((contextRuns groupDs).get ⟨i, hi⟩))
          (runCtx ((contextRuns groupDs).get ⟨i, hi⟩)) zeroModel).1).Perm
        (runSents ((contextRuns groupDs).get ⟨i, hi⟩)) ∧
      ∃ refs,
        (evalLoop constEa zeroModel 3 none [] none groupDs).1.get? i =
          some (closeGroup constEa zeroModel 3
            (runCtx ((contextRuns groupDs).get ⟨i, hi⟩))
            (runSents ((contextRuns groupDs).get ⟨i, hi⟩)) refs).1 ∧
        (evalLoop constEa zeroModel 3 none [] none groupDs).2.get? i =
          some (closeGroup constEa zeroModel 3
            (runCtx ((contextRuns groupDs).get ⟨i, hi⟩))
            (runSents ((contextRuns groupDs).get ⟨i, hi⟩)) refs).2 :=
  evaluate_model_grouping constEa zeroModel 3 groupDs (by decide) (by decide)
    (fun s c => by simp [zeroModel])

/-- C1 evaluated at the failing input `crossDs`: the two rows carry the
highlight lists ["HA"] (article A) and ["HB"] (article B), and the scorer
`crossEa` returns similarity 1 when handed ["HA"] and 2 when handed ["HB"].
The loop emits similarities [2, 2]: the group-closing call for article A
received article B's highlights (test.py line 32 passes the incoming row's
`highlights` instead of `current_highlight`), where the claim requires
["HA"] and hence a first similarity of 1. Only the stream-end close (the
second emission, correctly 2) uses the group's own highlights. -/
theorem evaluate_model_cross_highlights :
    (evalLoop crossEa zeroModel 3 none [] none crossDs).2 = [2, 2] ∧
    crossDs.map (fun e => pySplitNl e.highlights) = [["HA"], ["HB"]] ∧
    crossEa ["s1"] ["HA"] = (zeroScoreDict, 1) := by decide

/-! ## Theorems for the missing `compute_labels` (claim C10) -/

/-- C10: test.py imports `compute_labels` from utils, but `compute_labels`
is not among the names utils.py binds at module level, so importing the
module — and with it every group-closing evaluation of `evaluate_model`,
whose `evaluate_article` body calls `compute_labels` — raises an error
instead of producing a result. -/
theorem compute_labels_missing :
    "compute_labels" ∈ testImportsFromUtils ∧
    "compute_labels" ∉ utilsModuleNames := by decide
